import Mathlib

/-!
Shallow embedding of the tree-sitter-vim9 external scanner (src/scanner.c).

Characters are modelled as `Nat` byte/code-point values (0 plays the role of
the C nul / end-of-input sentinel, as in the scanner, whose loops all treat a
zero lookahead as end of input).  The `wctype.h` classification functions are
modelled on the ASCII range, which is the range every claim exercises.

The C `Scanner` struct stores the heredoc marker in a fixed 32-byte array
together with `marker_len`; every writer of that array (`create`,
`try_lex_heredoc_marker`, the `HEREDOC_END` branch of `scan`) keeps the bytes
past `marker_len` nul, so the struct is modelled with `marker : List Nat`
holding exactly the meaningful `marker_len` bytes.
-/

namespace VimScanner

/-- `iswlower` on the ASCII range. -/
def isLower (c : Nat) : Bool := decide (97 ≤ c ∧ c ≤ 122)

/-- `iswalpha` on the ASCII range. -/
def isAlpha (c : Nat) : Bool := decide ((65 ≤ c ∧ c ≤ 90) ∨ (97 ≤ c ∧ c ≤ 122))

/-- `iswalnum` on the ASCII range. -/
def isAlnum (c : Nat) : Bool := isAlpha c || decide (48 ≤ c ∧ c ≤ 57)

/-- `IS_SPACE_TABS` from scanner.c: the character is a space or a tab. -/
def isSpaceTab (c : Nat) : Bool := decide (c = 32 ∨ c = 9)

/-- `iswpunct` on the ASCII range. -/
def isPunct (c : Nat) : Bool :=
  decide ((33 ≤ c ∧ c ≤ 47) ∨ (58 ≤ c ∧ c ≤ 64) ∨ (91 ≤ c ∧ c ≤ 96) ∨ (123 ≤ c ∧ c ≤ 126))

/-- The persistent scanner state (`Scanner` in scanner.c).  `separator = 0`
models the nul character, i.e. no open paired separator. -/
structure Scanner where
  separator : Nat
  ignore_comments : Bool
  marker : List Nat
deriving DecidableEq

/-- `tree_sitter_vim_external_scanner_create`: the all-cleared initial state. -/
def scanner_create : Scanner := { separator := 0, ignore_comments := false, marker := [] }

/-- C `strncpy(dst, src, n)` viewed as the `n` bytes written to `dst`:
the source bytes up to its nul terminator (at most `n` of them), padded
with nul bytes up to length `n`. -/
def strncpyBytes (src : List Nat) (n : Nat) : List Nat :=
  let t := (src.takeWhile (fun c => c ≠ 0)).take n
  t ++ List.replicate (n - t.length) 0

/-- `tree_sitter_vim_external_scanner_serialize`: the returned buffer contents
(`marker_len + 3` bytes).  Byte `SC_IGNORE_COMMENTS = 0` holds the flag,
byte `SC_PAIRED_SEP = 1` the separator, byte `SC_MARK_LEN = 2` the marker
length, bytes `SC_MARK = 3 ...` the marker (via `strncpy`). -/
def serialize (s : Scanner) : List Nat :=
  (if s.ignore_comments then 1 else 0) :: s.separator :: s.marker.length ::
    strncpyBytes s.marker s.marker.length

/-- `tree_sitter_vim_external_scanner_deserialize` acting on the current state
`s`.  A zero-length buffer returns immediately, leaving `s` as it is.
Otherwise the three header bytes are read back and `marker_len` marker bytes
are copied with `strncpy` (skipped when `marker_len` is zero, which leaves no
meaningful marker bytes).  The two `assert`s of the C code (buffer length
consistency, `marker_len < 32`) are contract checks, not behaviour, and are
not modelled. -/
def deserialize (s : Scanner) (buf : List Nat) : Scanner :=
  if buf.length = 0 then s
  else
    { ignore_comments := decide (buf.getD 0 0 ≠ 0)
      separator := buf.getD 1 0
      marker :=
        if 0 < buf.getD 2 0 then strncpyBytes (buf.drop 3) (buf.getD 2 0) else [] }

/-- States reachable by the scanner: the marker was captured by
`try_lex_heredoc_marker` from non-nul input bytes and is capped strictly
below the 32-byte buffer capacity; the separator is a byte (nul or the
punctuation byte consumed when a paired separator opened). -/
def ReachableScanner (s : Scanner) : Prop :=
  s.marker.length < 32 ∧ (∀ c ∈ s.marker, c ≠ 0 ∧ c < 256) ∧ s.separator < 256

instance : DecidablePred ReachableScanner := fun _ =>
  inferInstanceAs (Decidable (_ ∧ _ ∧ _))

theorem takeWhile_all_ne_zero {m : List Nat} (h : ∀ c ∈ m, c ≠ 0) :
    m.takeWhile (fun c => c ≠ 0) = m :=
  List.takeWhile_eq_self_iff.mpr (by simpa using h)

theorem strncpyBytes_self {m : List Nat} (h : ∀ c ∈ m, c ≠ 0) :
    strncpyBytes m m.length = m := by
  unfold strncpyBytes
  rw [takeWhile_all_ne_zero h, List.take_length]
  simp

/-- C1.  For every reachable scanner state `s`, deserializing the bytes
produced by serializing `s` — into any pre-existing state `s₀` — yields a
state equal to `s`. -/
theorem serialize_deserialize_roundtrip (s₀ s : Scanner) (h : ReachableScanner s) :
    deserialize s₀ (serialize s) = s := by
  obtain ⟨-, hnz, -⟩ := h
  have hm : ∀ c ∈ s.marker, c ≠ 0 := fun c hc => (hnz c hc).1
  unfold deserialize serialize
  simp only [List.length_cons, List.getD_cons_zero, List.getD_cons_succ, List.drop_succ_cons,
    List.drop_zero, strncpyBytes_self hm]
  rw [if_neg (by omega)]
  cases s with
  | mk sep ign mk =>
    cases ign <;> cases mk <;> simp

/-- C1 witness: the round trip evaluated at a concrete reachable state. -/
theorem serialize_deserialize_roundtrip_witness :
    ReachableScanner { separator := 47, ignore_comments := true, marker := [65, 66] } ∧
      deserialize { separator := 0, ignore_comments := false, marker := [] }
        (serialize { separator := 47, ignore_comments := true, marker := [65, 66] }) =
        { separator := 47, ignore_comments := true, marker := [65, 66] } :=
  ⟨by decide, serialize_deserialize_roundtrip _ _ (by decide)⟩

/-- C2 counterexample: at the state with separator `'/'` (47) and the
suppress-comments flag set, byte 0 of the serialized form is the flag (1),
not the separator, and byte 1 is the separator (47), not the flag — the
layout of the claim is refuted at this concrete state. -/
theorem serialize_layout_claim_counterexample :
    (serialize { separator := 47, ignore_comments := true, marker := [] }).getD 0 0 ≠ 47 ∧
      (serialize { separator := 47, ignore_comments := true, marker := [] }).getD 1 0 ≠ 1 := by
  decide

/-- C2 (amended).  `serialize` produces byte 0 = suppress-comments flag as
0/1, byte 1 = separator (nul when none is open), byte 2 = marker length,
followed by exactly the marker bytes; total length `3 + marker length`.
(The marker bytes of a reachable state are non-nul, so `strncpy` copies them
verbatim.) -/
theorem serialize_layout (s : Scanner) (h : ∀ c ∈ s.marker, c ≠ 0) :
    serialize s =
      (if s.ignore_comments then 1 else 0) :: s.separator :: s.marker.length :: s.marker ∧
      (serialize s).length = 3 + s.marker.length := by
  unfold serialize
  rw [strncpyBytes_self h]
  exact ⟨rfl, by simp; omega⟩

/-- C2 witness: the amended layout evaluated at a concrete state. -/
theorem serialize_layout_witness :
    serialize { separator := 47, ignore_comments := true, marker := [65, 66] } =
        [1, 47, 2, 65, 66] ∧
      (serialize { separator := 47, ignore_comments := true, marker := [65, 66] }).length =
        3 + 2 := by
  have h := serialize_layout { separator := 47, ignore_comments := true, marker := [65, 66] }
    (by decide)
  exact ⟨h.1, h.2⟩

/-- C3 counterexample: deserializing a zero-length buffer into a state with
an open separator, the flag set and a non-empty marker leaves that state
untouched — it is not reset to the all-cleared construction value. -/
theorem deserialize_empty_claim_counterexample :
    deserialize { separator := 47, ignore_comments := true, marker := [65] } [] =
        { separator := 47, ignore_comments := true, marker := [65] } ∧
      ({ separator := 47, ignore_comments := true, marker := [65] } : Scanner) ≠
        scanner_create := by
  decide

/-- C3 (amended).  Deserializing a zero-length buffer is a no-op on the
current state: every state is left exactly as it was (in particular a freshly
created, all-cleared state stays all-cleared, which is the "no checkpoint
yet" situation). -/
theorem deserialize_empty_noop (s : Scanner) : deserialize s [] = s := by
  simp [deserialize]

/-! ## The token kinds (`enum TokenType` of scanner.c)

Keyword kinds occupy the ordinals from `KEYWORDS_BASE` on: entry `t` of the
keyword table maps to `KEYWORDS_BASE + t`, with the final `UNKNOWN_COMMAND`
slot right after the table. -/

abbrev NO : Nat := 0
abbrev INV : Nat := 1
abbrev CMD_SEPARATOR : Nat := 2
abbrev LINE_CONTINUATION : Nat := 3
abbrev SCRIPT_HEREDOC_MARKER : Nat := 4
abbrev LET_HEREDOC_MARKER : Nat := 5
abbrev HEREDOC_END : Nat := 6
abbrev SEP_FIRST : Nat := 7
abbrev SEP : Nat := 8
abbrev SCOPE_DICT : Nat := 9
abbrev SCOPE : Nat := 10
abbrev STRING : Nat := 11
abbrev COMMENT : Nat := 12
abbrev LINE_CONTINUATION_COMMENT : Nat := 13
abbrev BANG_FILTER : Nat := 14
abbrev KEYWORDS_BASE : Nat := 15

/-! ## The lexer cursor (`TSLexer`)

`input` is the character stream, `pos` the cursor.  `lookahead` is the
character under the cursor, with 0 (nul) past the end of input, exactly the
sentinel every loop of scanner.c tests.  `mark_end` records the current
position as the token end; tree-sitter lets a later `mark_end` move that end
forward again.  `advance`'s skip flag only influences the token's start
position in tree-sitter and no claim concerns token starts, so the model
keeps the flag for call-site fidelity and ignores it. -/

structure TSLexer where
  input : List Nat
  pos : Nat
  markedEnd : Option Nat
  resultSymbol : Option Nat
deriving DecidableEq

def lookahead (l : TSLexer) : Nat := (l.input.drop l.pos).headD 0

def advance (l : TSLexer) (_skip : Bool) : TSLexer := { l with pos := l.pos + 1 }

def mark_end (l : TSLexer) : TSLexer := { l with markedEnd := some l.pos }

theorem lookahead_pos_lt {l : TSLexer} (h : lookahead l ≠ 0) : l.pos < l.input.length := by
  by_contra hle
  exact h (by simp [lookahead, List.drop_eq_nil_of_le (Nat.le_of_not_lt hle)])

/-- `skip_space_tabs`: advance (skipping) over the run of spaces/tabs at the
cursor. -/
def skip_space_tabs (l : TSLexer) : TSLexer :=
  { l with pos := l.pos + ((l.input.drop l.pos).takeWhile isSpaceTab).length }

theorem skip_space_tabs_eq_self {l : TSLexer} (h : isSpaceTab (lookahead l) = false) :
    skip_space_tabs l = l := by
  unfold skip_space_tabs
  cases hd : l.input.drop l.pos with
  | nil => simp [hd]
  | cons c r =>
    have hc : isSpaceTab c = false := by
      have : lookahead l = c := by simp [lookahead, hd]
      rwa [this] at h
    simp [hd, List.takeWhile_cons, hc]

theorem skip_space_tabs_pos_le (l : TSLexer) : l.pos ≤ (skip_space_tabs l).pos :=
  Nat.le_add_right _ _

/-- `check_prefix` from scanner.c: consume the literal `pfx` character by
character; on full success set `result_symbol` to `tok`, on the first
mismatch stop (leaving the characters already matched consumed). -/
def check_pfx : TSLexer → List Nat → Nat → Bool × TSLexer
  | l, [], tok => (true, { l with resultSymbol := some tok })
  | l, c :: cs, tok =>
    if lookahead l = c then check_pfx (advance l false) cs tok else (false, l)

/-- The capture loop of `try_lex_heredoc_marker`: collect characters while
the lookahead is not space/tab, not nul and not a newline, and fewer than 32
characters have been collected.  The remaining budget `32 - acc.length` is
the structural fuel. -/
def heredoc_capture_aux : Nat → TSLexer → List Nat → List Nat × TSLexer
  | 0, l, acc => (acc, l)
  | n + 1, l, acc =>
    if isSpaceTab (lookahead l) = false ∧ lookahead l ≠ 0 ∧ lookahead l ≠ 10 then
      heredoc_capture_aux n (advance l false) (acc ++ [lookahead l])
    else (acc, l)

/-- `try_lex_heredoc_marker`: reject a lowercase first character, otherwise
capture the marker run; fail if zero characters or the full 32-character cap
were captured, and only on success store the run as the new marker (the C
code also re-nuls the tail of its fixed array, which the list model makes
implicit). -/
def try_lex_heredoc_marker (s : Scanner) (l : TSLexer) : Bool × Scanner × TSLexer :=
  if isLower (lookahead l) then (false, s, l)
  else
    let p := heredoc_capture_aux 32 l []
    if p.1.length = 32 ∨ p.1.length = 0 then (false, s, p.2)
    else (true, { s with marker := p.1 }, p.2)

def is_valid_string_delim (c : Nat) : Bool := decide (c = 39 ∨ c = 34)

/-- `lex_literal_string` (single-quoted form): `''` is an escaped quote, a
lone `'` ends the token; a newline marks the boundary and demands a
backslash continuation on the next line, else hard failure; nul is a hard
failure. -/
def lex_literal_string (l : TSLexer) : Bool × TSLexer :=
  if h1 : lookahead l = 39 then
    let l₁ := advance l false
    if lookahead l₁ = 39 then lex_literal_string (advance l₁ false)
    else (true, mark_end { l₁ with resultSymbol := some STRING })
  else if h2 : lookahead l = 10 then
    let l₂ := skip_space_tabs (advance (mark_end l) true)
    if lookahead l₂ ≠ 92 then (false, l₂)
    else lex_literal_string l₂
  else if h3 : lookahead l = 0 then (false, l)
  else lex_literal_string (advance l false)
termination_by l.input.length - l.pos
decreasing_by
  · have := lookahead_pos_lt (l := l) (by rw [h1]; omega)
    simp only [advance]
    omega
  · have := lookahead_pos_lt (l := l) (by rw [h2]; omega)
    have hle := skip_space_tabs_pos_le (advance (mark_end l) true)
    simp only [advance, mark_end, skip_space_tabs] at *
    omega
  · have := lookahead_pos_lt (l := l) h3
    simp only [advance]
    omega

/-- `lex_escapable_string` (double-quoted form): a backslash consumes the
following character unconditionally; an unescaped `"` ends a STRING token; a
newline marks the boundary, skips the next line's indentation and either
continues at a backslash or re-marks the end there and succeeds as a COMMENT
token; nul is a hard failure. -/
def lex_escapable_string (l : TSLexer) : Bool × TSLexer :=
  if h1 : lookahead l = 92 then
    lex_escapable_string (advance (advance l false) false)
  else if h2 : lookahead l = 34 then
    (true, { mark_end (advance l false) with resultSymbol := some STRING })
  else if h3 : lookahead l = 10 then
    let l₂ := skip_space_tabs (advance (mark_end l) false)
    if lookahead l₂ ≠ 92 then
      (true, { mark_end l₂ with resultSymbol := some COMMENT })
    else lex_escapable_string l₂
  else if h4 : lookahead l = 0 then (false, l)
  else lex_escapable_string (advance l false)
termination_by l.input.length - l.pos
decreasing_by
  · have := lookahead_pos_lt (l := l) (by rw [h1]; omega)
    simp only [advance]
    omega
  · have := lookahead_pos_lt (l := l) (by rw [h3]; omega)
    have hle := skip_space_tabs_pos_le (advance (mark_end l) false)
    simp only [advance, mark_end, skip_space_tabs] at *
    omega
  · have := lookahead_pos_lt (l := l) h4
    simp only [advance]
    omega

/-- `lex_string`: dispatch on the opening delimiter (the `default: assert(0)`
arm of the C switch is unreachable since the delimiter was just checked). -/
def lex_string (l : TSLexer) : Bool × TSLexer :=
  if is_valid_string_delim (lookahead l) = false then (false, l)
  else
    let d := lookahead l
    let l₁ := advance l false
    if d = 34 then lex_escapable_string l₁ else lex_literal_string l₁

/-- `scope_correct`: the lookahead is one of the scope letters `lbstvwg` or
`<`. -/
def scope_correct (c : Nat) : Bool :=
  decide (c = 108 ∨ c = 98 ∨ c = 115 ∨ c = 116 ∨ c = 118 ∨ c = 119 ∨ c = 103 ∨ c = 60)

/-- The `SID>` loop of `lex_scope`: `for (i = 0; sid[i] && lookahead; i++)`.
The loop exits successfully both when the whole literal was matched and when
the input runs out first (the `lookahead` conjunct); only an actual
mismatching character returns failure. -/
def sid_loop : TSLexer → List Nat → Bool × TSLexer
  | l, [] => (true, { l with resultSymbol := some SCOPE })
  | l, c :: cs =>
    if lookahead l = 0 then (true, { l with resultSymbol := some SCOPE })
    else if lookahead l = c then sid_loop (advance l false) cs
    else (false, l)

/-- `lex_scope`: a `<` must be followed by the literal `SID>` (via
`sid_loop`); a scope letter must be followed by `:` and is then classified as
SCOPE (identifier-ish continuation: alnum, `{` or `_`) or SCOPE_DICT. -/
def lex_scope (l : TSLexer) : Bool × TSLexer :=
  if scope_correct (lookahead l) = false then (false, l)
  else if lookahead l = 60 then sid_loop (advance l false) [83, 73, 68, 62]
  else
    let l₁ := advance l false
    if lookahead l₁ ≠ 58 then (false, l₁)
    else
      let l₂ := advance l₁ false
      if isAlnum (lookahead l₂) = true ∨ lookahead l₂ = 123 ∨ lookahead l₂ = 95 then
        (true, { l₂ with resultSymbol := some SCOPE })
      else (true, { l₂ with resultSymbol := some SCOPE_DICT })

/-- The while-loop of the LINE_CONTINUATION_COMMENT branch: advance while
the lookahead is neither nul nor newline. -/
def consume_to_eol (l : TSLexer) : TSLexer :=
  { l with
    pos := l.pos + ((l.input.drop l.pos).takeWhile (fun c => decide (c ≠ 0 ∧ c ≠ 10))).length }

/-- The do-while loop of the COMMENT branch of `scan`: advance once, then
keep advancing while the lookahead is neither newline nor nul. -/
def comment_consume (l : TSLexer) : TSLexer :=
  let l₁ := advance l false
  { l₁ with
    pos := l₁.pos + ((l₁.input.drop l₁.pos).takeWhile (fun c => decide (c ≠ 10 ∧ c ≠ 0))).length }

/-! ## Keyword matching -/

/-- A keyword-table entry (`keyword` in scanner.c); the table itself lives in
the generated `keywords.h` and is treated as an external read-only table. -/
structure Keyword where
  mandat : List Nat
  opt : List Nat
  ignore_comments_after : Bool
deriving DecidableEq

/-- Simultaneous walk of two C strings, the shape of both character loops of
`try_lex_keyword`: compare while both strings have characters left, `none` on
the first mismatch, otherwise the two remainders at the first exhausted
string. -/
def walk_both : List Nat → List Nat → Option (List Nat × List Nat)
  | a :: as, b :: bs => if b = a then walk_both as bs else none
  | as, bs => some (as, bs)

/-- `try_lex_keyword`: a captured run matches an entry when it is no longer
than mandatory+optional, matches the mandatory prefix literally and fully,
and its remainder matches a leading part of the optional suffix. -/
def try_lex_keyword (possible : List Nat) (kw : Keyword) : Bool :=
  if kw.mandat.length + kw.opt.length < possible.length then false
  else
    match walk_both kw.mandat possible with
    | none => false
    | some (mrest, prest) =>
      if mrest ≠ [] ∧ prest = [] then false
      else
        match walk_both kw.opt prest with
        | none => false
        | some _ => true

/-- The keyword-table loop of `scan`: find the first entry whose accepted
flag is set (`tok` is the entry's token ordinal, starting at
`KEYWORDS_BASE`) and which matches the captured run; yield its ordinal and
its `ignore_comments_after` value. -/
def keyword_search : List Keyword → Nat → List Nat → (Nat → Bool) → Option (Nat × Bool)
  | [], _, _, _ => none
  | k :: rest, tok, run, valids =>
    if valids tok && try_lex_keyword run k then some (tok, k.ignore_comments_after)
    else keyword_search rest (tok + 1) run valids

/-- The capture loop of the keyword path
(`for (i = 1; i < KEYWORD_SIZE && iswalpha(lookahead); i++)`): collect
letters while the loop index `i` (= `acc.length`) stays below 30.  The
remaining budget `30 - acc.length` is the structural fuel; exhausted fuel is
exactly the C loop's `i == KEYWORD_SIZE` exit. -/
def keyword_capture_aux : Nat → TSLexer → List Nat → List Nat × TSLexer
  | 0, l, acc => (acc, l)
  | n + 1, l, acc =>
    if isAlpha (lookahead l) then
      keyword_capture_aux n (advance l false) (acc ++ [lookahead l])
    else (acc, l)

/-! ## The dispatch core (`tree_sitter_vim_external_scanner_scan`)

The scan function is written as a chain of stages, one per contiguous run of
branches of the C function, in source order; every stage either returns (the
branch was entered) or falls through to the next stage (its guard failed),
exactly as the C `return`s do.  Each result carries a trace recording which
token-class branches were entered, so that "the check for class X was
attempted" is a statement about the result.  The leading
`assert(valid_symbols[LINE_CONTINUATION])` is a host contract check, not
behaviour, and is not modelled. -/

inductive ScanStep where
  | sepFirst | sepNext | bang | noPfx | invPfx | newline | pipe | scopeRef
  | markerCapture | heredocEnd | commentLine | stringLit | keywordRun
deriving DecidableEq

structure ScanResult where
  matched : Bool
  scanner : Scanner
  lexer : TSLexer
  trace : List ScanStep
deriving DecidableEq

/-- The keyword path of `scan` after the first letter was consumed (lines
441-464 of scanner.c): capture up to 29 further letters, hard-fail when the
loop index hit 30, otherwise search the table and fall back to the
UNKNOWN_COMMAND slot when accepted. -/
def scan_keyword_rest (kws : List Keyword) (s : Scanner) (valids : Nat → Bool)
    (l : TSLexer) (c0 : Nat) : ScanResult :=
  let p := keyword_capture_aux 29 l [c0]
  if p.1.length = 30 then ⟨false, s, p.2, [.keywordRun]⟩
  else
    match keyword_search kws KEYWORDS_BASE p.1 valids with
    | some r =>
      ⟨true, { s with ignore_comments := r.2 },
        { p.2 with resultSymbol := some r.1 }, [.keywordRun]⟩
    | none =>
      if valids (kws.length + KEYWORDS_BASE) then
        ⟨true, s, { p.2 with resultSymbol := some (kws.length + KEYWORDS_BASE) },
          [.keywordRun]⟩
      else ⟨false, s, p.2, [.keywordRun]⟩

/-- The keyword path of `scan` (lines 418-466): entered on a lowercase
lookahead; a scope letter followed by `:` is re-classified as SCOPE (the
deliberate second-chance scope check), otherwise the letter run is captured
and matched.  A non-lowercase lookahead falls to the final `return false`. -/
def scan_keyword_path (kws : List Keyword) (s : Scanner) (valids : Nat → Bool)
    (l : TSLexer) : ScanResult :=
  if isLower (lookahead l) then
    let c0 := lookahead l
    if lookahead l ≠ 0 ∧ (c0 = 103 ∨ c0 = 98 ∨ c0 = 108 ∨ c0 = 116 ∨ c0 = 119 ∨
        c0 = 115 ∨ c0 = 118) then
      let l₁ := advance l false
      if lookahead l₁ = 58 then
        ⟨true, s, { advance l₁ false with resultSymbol := some SCOPE }, [.keywordRun]⟩
      else scan_keyword_rest kws s valids l₁ c0
    else scan_keyword_rest kws s valids (advance l false) c0
  else ⟨false, s, l, []⟩

/-- The COMMENT / STRING disambiguation of `scan` (lines 405-415): `"`
starts a line comment only when COMMENT is accepted, STRING is not, and
comments are not suppressed; otherwise an accepted STRING delegates to (and
returns from) the string lexer. -/
def scan_comment_string (kws : List Keyword) (s : Scanner) (valids : Nat → Bool)
    (l : TSLexer) : ScanResult :=
  if valids COMMENT = true ∧ valids STRING = false ∧ lookahead l = 34 ∧
      s.ignore_comments = false then
    ⟨true, s, { comment_consume l with resultSymbol := some COMMENT }, [.commentLine]⟩
  else if valids STRING then
    let p := lex_string l
    ⟨p.1, s, p.2, [.stringLit]⟩
  else scan_keyword_path kws s valids l

/-- The HEREDOC_END branch of `scan` (lines 388-403): match the stored marker
(or a literal `.` when none was ever stored) as a prefix, require
end-of-input or a newline right after it, and clear the marker on success.
When HEREDOC_END is accepted this branch always returns. -/
def scan_heredoc_end (kws : List Keyword) (s : Scanner) (valids : Nat → Bool)
    (l : TSLexer) : ScanResult :=
  if valids HEREDOC_END then
    let mk := if s.marker.length ≠ 0 then s.marker else [46]
    let p := check_pfx l mk HEREDOC_END
    if p.1 = false then ⟨false, s, p.2, [.heredocEnd]⟩
    else if lookahead p.2 ≠ 0 ∧ lookahead p.2 ≠ 10 then ⟨false, s, p.2, [.heredocEnd]⟩
    else ⟨true, { s with marker := [] }, p.2, [.heredocEnd]⟩
  else scan_comment_string kws s valids l

/-- The heredoc-marker capture branches of `scan` (lines 380-387): when
either marker kind is accepted, `result_symbol` is set before the attempt is
even made, and the branch returns the attempt's outcome. -/
def scan_marker_capture (kws : List Keyword) (s : Scanner) (valids : Nat → Bool)
    (l : TSLexer) : ScanResult :=
  if valids SCRIPT_HEREDOC_MARKER then
    let p := try_lex_heredoc_marker s { l with resultSymbol := some SCRIPT_HEREDOC_MARKER }
    ⟨p.1, p.2.1, p.2.2, [.markerCapture]⟩
  else if valids LET_HEREDOC_MARKER then
    let p := try_lex_heredoc_marker s { l with resultSymbol := some LET_HEREDOC_MARKER }
    ⟨p.1, p.2.1, p.2.2, [.markerCapture]⟩
  else scan_heredoc_end kws s valids l

/-- The scope branch of `scan` (lines 372-378): attempted whenever the
lookahead is a scope character and either scope kind is accepted; success or
failure, it returns. -/
def scan_scope (kws : List Keyword) (s : Scanner) (valids : Nat → Bool)
    (l : TSLexer) : ScanResult :=
  if scope_correct (lookahead l) = true ∧ (valids SCOPE_DICT = true ∨ valids SCOPE = true) then
    let p := lex_scope l
    ⟨p.1, s, p.2, [.scopeRef]⟩
  else scan_marker_capture kws s valids l

/-- The pipe branch of `scan` (lines 362-369): a `|` not followed by a second
`|` is a command separator; `||` is rejected. -/
def scan_pipe (kws : List Keyword) (s : Scanner) (valids : Nat → Bool)
    (l : TSLexer) : ScanResult :=
  if valids CMD_SEPARATOR = true ∧ lookahead l = 124 then
    let l₁ := advance l false
    if lookahead l₁ = 124 then ⟨false, s, l₁, [.pipe]⟩
    else ⟨true, s, { l₁ with resultSymbol := some CMD_SEPARATOR }, [.pipe]⟩
  else scan_scope kws s valids l

/-- The newline branch of `scan` (lines 324-359): consume the newline, mark
the boundary, skip indentation; a backslash introduces either a
continuation-marker command separator (`/?&`) or a line continuation; a
`"\ ` opener (only with no open heredoc) is a continued comment to end of
line; otherwise the bare newline is a command separator when accepted. -/
def scan_newline (s : Scanner) (valids : Nat → Bool) (l : TSLexer) : ScanResult :=
  let l₂ := skip_space_tabs (mark_end (advance l false))
  if lookahead l₂ = 92 then
    let l₃ := advance l₂ false
    if lookahead l₃ = 47 ∨ lookahead l₃ = 63 ∨ lookahead l₃ = 38 then
      if valids CMD_SEPARATOR then
        ⟨true, { s with ignore_comments := false },
          { l₃ with resultSymbol := some CMD_SEPARATOR }, [.newline]⟩
      else ⟨false, s, l₃, [.newline]⟩
    else
      ⟨true, s, { mark_end l₃ with resultSymbol := some LINE_CONTINUATION }, [.newline]⟩
  else if s.marker.length = 0 then
    let p := check_pfx l₂ [34, 92, 32] LINE_CONTINUATION_COMMENT
    if p.1 then ⟨true, s, mark_end (consume_to_eol p.2), [.newline]⟩
    else if valids CMD_SEPARATOR then
      ⟨true, { s with ignore_comments := false },
        { p.2 with resultSymbol := some CMD_SEPARATOR }, [.newline]⟩
    else ⟨false, s, p.2, [.newline]⟩
  else if valids CMD_SEPARATOR then
    ⟨true, { s with ignore_comments := false },
      { l₂ with resultSymbol := some CMD_SEPARATOR }, [.newline]⟩
  else ⟨false, s, l₂, [.newline]⟩

/-- `tree_sitter_vim_external_scanner_scan`: skip space/tabs, fail at end of
input, then try the branches in source order: paired-separator open/close,
bang filter, the `no`/`inv` negation prefixes, the newline branch, and from
the pipe branch onwards the remaining stages. -/
def scan (kws : List Keyword) (s : Scanner) (valids : Nat → Bool) (l₀ : TSLexer) :
    ScanResult :=
  let l := skip_space_tabs l₀
  if lookahead l = 0 then ⟨false, s, l, []⟩
  else if valids SEP_FIRST = true ∧ isPunct (lookahead l) = true then
    ⟨true, { s with separator := lookahead l, ignore_comments := true },
      { advance l false with resultSymbol := some SEP_FIRST }, [.sepFirst]⟩
  else if valids SEP = true ∧ s.separator = lookahead l then
    ⟨true, { s with ignore_comments := false },
      { advance l false with resultSymbol := some SEP }, [.sepNext]⟩
  else if valids BANG_FILTER = true ∧ lookahead l = 33 then
    ⟨true, { s with ignore_comments := true },
      { advance l false with resultSymbol := some BANG_FILTER }, [.bang]⟩
  else if valids NO = true ∧ lookahead l = 110 then
    let p := check_pfx l [110, 111] NO
    ⟨p.1, s, p.2, [.noPfx]⟩
  else if valids INV = true ∧ lookahead l = 105 then
    let p := check_pfx l [105, 110, 118] INV
    ⟨p.1, s, p.2, [.invPfx]⟩
  else if lookahead l = 10 then scan_newline s valids l
  else scan_pipe kws s valids l

/-! ## Facts about `walk_both` and the keyword matcher -/

theorem walk_both_nil_left (b : List Nat) : walk_both [] b = some ([], b) := by
  cases b <;> rfl

theorem walk_both_some {a b a' b' : List Nat} (h : walk_both a b = some (a', b')) :
    ∃ c, a = c ++ a' ∧ b = c ++ b' ∧ (a' = [] ∨ b' = []) := by
  induction a generalizing b with
  | nil =>
    rw [walk_both_nil_left] at h
    simp only [Option.some.injEq, Prod.mk.injEq] at h
    obtain ⟨h1, h2⟩ := h
    subst h1; subst h2
    exact ⟨[], by simp, rfl, Or.inl rfl⟩
  | cons x xs ih =>
    cases b with
    | nil =>
      rw [show walk_both (x :: xs) [] = some (x :: xs, []) from rfl] at h
      simp only [Option.some.injEq, Prod.mk.injEq] at h
      obtain ⟨h1, h2⟩ := h
      subst h1; subst h2
      exact ⟨[], by simp, rfl, Or.inr rfl⟩
    | cons y ys =>
      rw [show walk_both (x :: xs) (y :: ys) =
          if y = x then walk_both xs ys else none from rfl] at h
      split at h
      · rename_i hyx
        subst hyx
        obtain ⟨c, hc1, hc2, hc3⟩ := ih h
        exact ⟨y :: c, by simp [hc1], by simp [hc2], hc3⟩
      · exact absurd h (by simp)

theorem walk_both_append_left (c r : List Nat) : walk_both c (c ++ r) = some ([], r) := by
  induction c with
  | nil => exact walk_both_nil_left r
  | cons x xs ih =>
    rw [show walk_both (x :: xs) (x :: xs ++ r) =
        if x = x then walk_both xs (xs ++ r) else none from rfl]
    simp [ih]

theorem walk_both_append_right (p t : List Nat) : walk_both (p ++ t) p = some (t, []) := by
  induction p with
  | nil => cases t <;> rfl
  | cons y ys ih =>
    rw [show walk_both (y :: ys ++ t) (y :: ys) =
        if y = y then walk_both (ys ++ t) ys else none from rfl]
    simp [ih]

/-- C6.  `try_lex_keyword` accepts a captured run exactly when the run is
the entry's mandatory prefix followed by some (possibly empty) leading part
of the optional suffix, with nothing beyond; in particular runs shorter than
the mandatory prefix or containing a mismatching character are rejected. -/
theorem try_lex_keyword_abbrev_iff (possible : List Nat) (kw : Keyword) :
    try_lex_keyword possible kw = true ↔
      ∃ p, p <+: kw.opt ∧ possible = kw.mandat ++ p := by
  constructor
  · intro h
    unfold try_lex_keyword at h
    split at h
    · simp at h
    · rename_i hlen
      cases hw : walk_both kw.mandat possible with
      | none => rw [hw] at h; simp at h
      | some pr =>
        obtain ⟨mrest, prest⟩ := pr
        rw [hw] at h
        simp only at h
        obtain ⟨c, hcm, hcp, hor⟩ := walk_both_some hw
        split at h
        · simp at h
        · rename_i hguard
          rcases hor with hm0 | hp0
          · subst hm0
            simp only [List.append_nil] at hcm
            cases hw2 : walk_both kw.opt prest with
            | none => rw [hw2] at h; simp at h
            | some pr2 =>
              obtain ⟨orest, prest2⟩ := pr2
              obtain ⟨c2, ho1, ho2, hor2⟩ := walk_both_some hw2
              rcases hor2 with ho0 | hp20
              · subst ho0
                simp only [List.append_nil] at ho1
                have hlen' := Nat.le_of_not_lt hlen
                have e1 : possible.length =
                    kw.mandat.length + (c2.length + prest2.length) := by
                  rw [hcp, hcm, ho2]; simp
                have e2 : kw.opt.length = c2.length := by rw [ho1]
                have h2 : prest2 = [] := List.length_eq_zero.mp (by omega)
                subst h2
                simp only [List.append_nil] at ho2
                exact ⟨prest, ⟨[], by simp [ho2, ho1]⟩, by rw [hcp, hcm]⟩
              · subst hp20
                simp only [List.append_nil] at ho2
                subst ho2
                exact ⟨prest, ⟨orest, ho1.symm⟩, by rw [hcp, hcm]⟩
          · subst hp0
            have hm0 : mrest = [] := by
              by_contra hne
              exact hguard ⟨hne, rfl⟩
            subst hm0
            simp only [List.append_nil] at hcm hcp
            exact ⟨[], ⟨kw.opt, by simp⟩, by simp [hcp, hcm]⟩
  · rintro ⟨p, ⟨t, ht⟩, rfl⟩
    unfold try_lex_keyword
    rw [if_neg (by
      have hp : p.length ≤ kw.opt.length := by rw [← ht]; simp
      simp only [not_lt, List.length_append]
      omega)]
    rw [walk_both_append_left kw.mandat p]
    simp only
    rw [if_neg (by simp)]
    rw [← ht, walk_both_append_right p t]

/-! ## C8: the `<SID>` scope form at end of input -/

/-- C8.  The claim says a `<` not followed by the full literal `SID>` —
including the input ending early — is a hard failure with no token.  The
code instead exits its matching loop successfully when the input runs out
(`sid[i] && lexer->lookahead`) and emits SCOPE: on the input `<SI` followed
by end of input, `lex_scope` succeeds and emits a SCOPE token. -/
theorem lex_scope_truncated_sid_emits_scope :
    (lex_scope ⟨[60, 83, 73], 0, none, none⟩).1 = true ∧
      (lex_scope ⟨[60, 83, 73], 0, none, none⟩).2.resultSymbol = some SCOPE := by
  decide

/-! ## C9: failed heredoc-marker capture leaves the state unchanged -/

/-- C9.  Whenever `try_lex_heredoc_marker` fails (lowercase first character,
zero characters captured, or the 32-character cap hit), the scanner state —
every field of it — is returned unchanged. -/
theorem try_lex_heredoc_marker_failure_frame (s : Scanner) (l : TSLexer)
    (h : (try_lex_heredoc_marker s l).1 = false) :
    (try_lex_heredoc_marker s l).2.1 = s := by
  simp only [try_lex_heredoc_marker] at h ⊢
  split_ifs at h ⊢ <;> simp_all

/-- C9 witness: a failed capture (lowercase first character) at a concrete
non-default state returns that state unchanged. -/
theorem try_lex_heredoc_marker_failure_frame_witness :
    (try_lex_heredoc_marker ⟨47, true, [65]⟩ ⟨[97, 98, 99], 0, none, none⟩).1 = false ∧
      (try_lex_heredoc_marker ⟨47, true, [65]⟩ ⟨[97, 98, 99], 0, none, none⟩).2.1 =
        ⟨47, true, [65]⟩ :=
  ⟨by decide, try_lex_heredoc_marker_failure_frame _ _ (by decide)⟩

/-! ## Facts about `check_pfx` -/

theorem check_pfx_fst_iff {pfx : List Nat} (hz : ∀ c ∈ pfx, c ≠ 0) :
    ∀ (l : TSLexer) (tok : Nat),
      ((check_pfx l pfx tok).1 = true ↔ pfx <+: l.input.drop l.pos) := by
  induction pfx with
  | nil => intro l tok; simp [check_pfx, List.nil_prefix]
  | cons c cs ih =>
    intro l tok
    have hc0 : c ≠ 0 := hz c (by simp)
    have hcs : ∀ x ∈ cs, x ≠ 0 := fun x hx => hz x (by simp [hx])
    cases hd : l.input.drop l.pos with
    | nil =>
      have hla : lookahead l = 0 := by simp [lookahead, hd]
      simp only [check_pfx, hla]
      rw [if_neg (by omega)]
      simp
    | cons x r =>
      have hla : lookahead l = x := by simp [lookahead, hd]
      have hdrop : l.input.drop (l.pos + 1) = r := by
        rw [← List.tail_drop, hd]; rfl
      simp only [check_pfx, hla]
      by_cases hxc : x = c
      · subst hxc
        rw [if_pos rfl, ih hcs (advance l false) tok]
        simp [advance, hdrop, List.cons_prefix_cons]
      · rw [if_neg (by omega)]
        simp only [List.cons_prefix_cons]
        exact iff_of_false (by simp) (fun hp => hxc hp.1.symm)

theorem check_pfx_true_resultSymbol {pfx : List Nat} :
    ∀ {l : TSLexer} {tok : Nat}, (check_pfx l pfx tok).1 = true →
      (check_pfx l pfx tok).2.resultSymbol = some tok := by
  induction pfx with
  | nil => intro l tok _; rfl
  | cons c cs ih =>
    intro l tok h
    by_cases hc : lookahead l = c
    · rw [check_pfx, if_pos hc] at h ⊢
      exact ih h
    · rw [check_pfx, if_neg hc] at h
      simp at h

/-! ## C10: a failed `no`/`inv` prefix short-circuits the whole scan -/

/-- C10.  When NO is accepted and the lookahead is `n` but the input does not
continue with the full literal `no`, the scan call returns no match, and its
trace is exactly the NO-prefix attempt — in particular no scope, heredoc
(capture or terminator), string, comment, or keyword matching is attempted;
likewise for INV with lookahead `i` and input not continuing with `inv`.
(The separator hypothesis is the reachability invariant: the stored
separator is nul or the punctuation character that opened it; `n`/`i` are
neither, so the paired-separator-close branch cannot fire.) -/
theorem negation_prefix_failure_short_circuits (kws : List Keyword) (s : Scanner)
    (valids : Nat → Bool) (l : TSLexer)
    (hsep : s.separator = 0 ∨ isPunct s.separator = true) :
    (valids NO = true → lookahead l = 110 → ¬ ([110, 111] <+: l.input.drop l.pos) →
      (scan kws s valids l).matched = false ∧
        (scan kws s valids l).trace = [ScanStep.noPfx]) ∧
    (valids INV = true → lookahead l = 105 → ¬ ([105, 110, 118] <+: l.input.drop l.pos) →
      (scan kws s valids l).matched = false ∧
        (scan kws s valids l).trace = [ScanStep.invPfx]) := by
  constructor
  · intro h1 h2 h3
    have hskip : skip_space_tabs l = l := skip_space_tabs_eq_self (by rw [h2]; rfl)
    have hpfx : (check_pfx l [110, 111] NO).1 = false := by
      rw [Bool.eq_false_iff]
      intro hT
      exact h3 ((check_pfx_fst_iff (by decide) l NO).mp hT)
    simp only [scan, hskip]
    rw [if_neg (by omega), if_neg (fun hp => by
        have := hp.2; rw [h2] at this; exact absurd this (by decide)),
      if_neg (fun hp => by
        rcases hsep with h0 | hpunct
        · rw [h0, h2] at hp; omega
        · rw [hp.2, h2] at hpunct; exact absurd hpunct (by decide)),
      if_neg (by rw [h2]; omega), if_pos ⟨h1, h2⟩]
    exact ⟨hpfx, rfl⟩
  · intro h1 h2 h3
    have hskip : skip_space_tabs l = l := skip_space_tabs_eq_self (by rw [h2]; rfl)
    have hpfx : (check_pfx l [105, 110, 118] INV).1 = false := by
      rw [Bool.eq_false_iff]
      intro hT
      exact h3 ((check_pfx_fst_iff (by decide) l INV).mp hT)
    simp only [scan, hskip]
    rw [if_neg (by omega), if_neg (fun hp => by
        have := hp.2; rw [h2] at this; exact absurd this (by decide)),
      if_neg (fun hp => by
        rcases hsep with h0 | hpunct
        · rw [h0, h2] at hp; omega
        · rw [hp.2, h2] at hpunct; exact absurd hpunct (by decide)),
      if_neg (by rw [h2]; omega), if_neg (by rw [h2]; omega), if_pos ⟨h1, h2⟩]
    exact ⟨hpfx, rfl⟩

/-- C10 witness: the NO case on input `next` and the INV case on input `inx`,
at the freshly created state, each return no match with exactly the
negation-prefix attempt in the trace. -/
theorem negation_prefix_failure_short_circuits_witness :
    ((scan [] scanner_create (fun n => n == 0 || n == 3)
        ⟨[110, 101, 120, 116], 0, none, none⟩).matched = false ∧
      (scan [] scanner_create (fun n => n == 0 || n == 3)
        ⟨[110, 101, 120, 116], 0, none, none⟩).trace = [ScanStep.noPfx]) ∧
    ((scan [] scanner_create (fun n => n == 1 || n == 3)
        ⟨[105, 110, 120], 0, none, none⟩).matched = false ∧
      (scan [] scanner_create (fun n => n == 1 || n == 3)
        ⟨[105, 110, 120], 0, none, none⟩).trace = [ScanStep.invPfx]) :=
  ⟨(negation_prefix_failure_short_circuits [] scanner_create (fun n => n == 0 || n == 3)
      ⟨[110, 101, 120, 116], 0, none, none⟩ (Or.inl rfl)).1
      (by decide) (by decide) (by decide),
    (negation_prefix_failure_short_circuits [] scanner_create (fun n => n == 1 || n == 3)
      ⟨[105, 110, 120], 0, none, none⟩ (Or.inl rfl)).2
      (by decide) (by decide) (by decide)⟩

/-! ## C4: priority of the heredoc-terminator check -/

/-- C4 counterexample: a scan call made while `heredoc_marker` is non-empty
(marker `A`) and with HEREDOC_END in the accepted set, on input `/x` with the
paired-separator-open kind accepted, emits a SEP_FIRST token without the
heredoc-terminator check ever being attempted (it is not in the trace) — the
terminator match is not attempted before every other token class. -/
theorem heredoc_terminator_priority_counterexample :
    ([65] : List Nat) ≠ [] ∧
      (scan [] ⟨0, false, [65]⟩ (fun n => n == 3 || n == 6 || n == 7)
        ⟨[47, 120], 0, none, none⟩).matched = true ∧
      (scan [] ⟨0, false, [65]⟩ (fun n => n == 3 || n == 6 || n == 7)
        ⟨[47, 120], 0, none, none⟩).lexer.resultSymbol = some SEP_FIRST ∧
      ScanStep.heredocEnd ∉ (scan [] ⟨0, false, [65]⟩ (fun n => n == 3 || n == 6 || n == 7)
        ⟨[47, 120], 0, none, none⟩).trace := by
  decide

theorem sid_loop_true_resultSymbol {cs : List Nat} :
    ∀ {l : TSLexer}, (sid_loop l cs).1 = true →
      (sid_loop l cs).2.resultSymbol = some SCOPE := by
  induction cs with
  | nil => intro l _; rfl
  | cons c cs ih =>
    intro l h
    simp only [sid_loop] at h ⊢
    split_ifs at h ⊢
    · rfl
    · exact ih h

theorem lex_scope_true_resultSymbol {l : TSLexer} (h : (lex_scope l).1 = true) :
    (lex_scope l).2.resultSymbol = some SCOPE ∨
      (lex_scope l).2.resultSymbol = some SCOPE_DICT := by
  simp only [lex_scope] at h ⊢
  split_ifs at h ⊢
  · exact Or.inl (sid_loop_true_resultSymbol h)
  · exact Or.inl rfl
  · exact Or.inr rfl

theorem heredoc_capture_aux_resultSymbol :
    ∀ (n : Nat) (l : TSLexer) (acc : List Nat),
      (heredoc_capture_aux n l acc).2.resultSymbol = l.resultSymbol := by
  intro n
  induction n with
  | zero => intro l acc; rfl
  | succ n ih =>
    intro l acc
    simp only [heredoc_capture_aux]
    split
    · exact ih _ _
    · rfl

theorem try_lex_heredoc_marker_resultSymbol (s : Scanner) (l : TSLexer) :
    (try_lex_heredoc_marker s l).2.2.resultSymbol = l.resultSymbol := by
  simp only [try_lex_heredoc_marker]
  split_ifs <;> simp [heredoc_capture_aux_resultSymbol]

@[simp] theorem mark_end_resultSymbol (l : TSLexer) :
    (mark_end l).resultSymbol = l.resultSymbol := rfl

@[simp] theorem consume_to_eol_resultSymbol (l : TSLexer) :
    (consume_to_eol l).resultSymbol = l.resultSymbol := rfl

@[simp] theorem advance_resultSymbol (l : TSLexer) (b : Bool) :
    (advance l b).resultSymbol = l.resultSymbol := rfl

/-- The token kinds that branches preceding (and including) the HEREDOC_END
branch of `scan` can set: everything except STRING, COMMENT and the
keyword-table / unknown-command kinds. -/
def preHeredocKinds : List Nat :=
  [NO, INV, CMD_SEPARATOR, LINE_CONTINUATION, SCRIPT_HEREDOC_MARKER, LET_HEREDOC_MARKER,
    HEREDOC_END, SEP_FIRST, SEP, SCOPE_DICT, SCOPE, LINE_CONTINUATION_COMMENT, BANG_FILTER]

theorem scan_newline_matched_kinds {s : Scanner} {valids : Nat → Bool} {l : TSLexer}
    {k : Nat} (hm : (scan_newline s valids l).matched = true)
    (hk : (scan_newline s valids l).lexer.resultSymbol = some k) :
    k ∈ preHeredocKinds := by
  simp only [scan_newline] at hm hk
  split_ifs at hm hk
  all_goals simp at hm hk
  all_goals try (rw [check_pfx_true_resultSymbol (by assumption)] at hk; simp at hk)
  all_goals subst hk
  all_goals decide

theorem scan_heredoc_end_matched_kinds {kws : List Keyword} {s : Scanner}
    {valids : Nat → Bool} {l : TSLexer} {k : Nat} (hv : valids HEREDOC_END = true)
    (hm : (scan_heredoc_end kws s valids l).matched = true)
    (hk : (scan_heredoc_end kws s valids l).lexer.resultSymbol = some k) :
    k ∈ preHeredocKinds := by
  simp only [scan_heredoc_end, hv, if_true] at hm hk
  split_ifs at hm hk
  all_goals simp at hm hk
  all_goals rw [check_pfx_true_resultSymbol (by simp_all)] at hk
  all_goals simp at hk
  all_goals subst hk
  all_goals decide

theorem scan_marker_capture_matched_kinds {kws : List Keyword} {s : Scanner}
    {valids : Nat → Bool} {l : TSLexer} {k : Nat} (hv : valids HEREDOC_END = true)
    (hm : (scan_marker_capture kws s valids l).matched = true)
    (hk : (scan_marker_capture kws s valids l).lexer.resultSymbol = some k) :
    k ∈ preHeredocKinds := by
  simp only [scan_marker_capture] at hm hk
  split_ifs at hm hk
  · simp [try_lex_heredoc_marker_resultSymbol] at hk
    subst hk
    decide
  · simp [try_lex_heredoc_marker_resultSymbol] at hk
    subst hk
    decide
  · exact scan_heredoc_end_matched_kinds hv hm hk

theorem scan_scope_matched_kinds {kws : List Keyword} {s : Scanner}
    {valids : Nat → Bool} {l : TSLexer} {k : Nat} (hv : valids HEREDOC_END = true)
    (hm : (scan_scope kws s valids l).matched = true)
    (hk : (scan_scope kws s valids l).lexer.resultSymbol = some k) :
    k ∈ preHeredocKinds := by
  simp only [scan_scope] at hm hk
  split_ifs at hm hk
  · simp at hm hk
    rcases lex_scope_true_resultSymbol hm with h | h <;>
      · rw [h] at hk
        simp at hk
        subst hk
        decide
  · exact scan_marker_capture_matched_kinds hv hm hk

theorem scan_pipe_matched_kinds {kws : List Keyword} {s : Scanner}
    {valids : Nat → Bool} {l : TSLexer} {k : Nat} (hv : valids HEREDOC_END = true)
    (hm : (scan_pipe kws s valids l).matched = true)
    (hk : (scan_pipe kws s valids l).lexer.resultSymbol = some k) :
    k ∈ preHeredocKinds := by
  simp only [scan_pipe] at hm hk
  split_ifs at hm hk
  all_goals try simp at hm hk
  · subst hk
    decide
  · exact scan_scope_matched_kinds hv hm hk

/-- C4 (amended).  While `heredoc_marker` is non-empty and the HEREDOC_END
kind is in the accepted set, a scan call that emits a token only ever emits a
kind from the token classes at or before the heredoc-terminator branch in
the priority order — never a comment, string, keyword-table or
unknown-command token (the terminator branch returns unconditionally once
reached).  Token classes earlier in the order (separator open/close, bang
filter, negation prefixes, newline forms, pipe, scope, marker capture) can
however be emitted without the terminator check being attempted. -/
theorem scan_heredoc_end_gate (kws : List Keyword) (s : Scanner) (valids : Nat → Bool)
    (l : TSLexer) (hv : valids HEREDOC_END = true) (hmk : s.marker ≠ []) (k : Nat)
    (hm : (scan kws s valids l).matched = true)
    (hk : (scan kws s valids l).lexer.resultSymbol = some k) :
    k ∈ preHeredocKinds := by
  simp only [scan] at hm hk
  split_ifs at hm hk
  all_goals try simp at hm hk
  · subst hk
    decide
  · subst hk
    decide
  · subst hk
    decide
  · rw [check_pfx_true_resultSymbol hm] at hk
    simp at hk
    subst hk
    decide
  · rw [check_pfx_true_resultSymbol hm] at hk
    simp at hk
    subst hk
    decide
  · exact scan_newline_matched_kinds hm hk
  · exact scan_pipe_matched_kinds hv hm hk

/-! ## Character-class bounds and cursor facts -/

theorem isLower_bounds {c : Nat} (h : isLower c = true) : 97 ≤ c ∧ c ≤ 122 := by
  simpa [isLower] using h

theorem isAlpha_bounds {c : Nat} (h : isAlpha c = true) :
    (65 ≤ c ∧ c ≤ 90) ∨ (97 ≤ c ∧ c ≤ 122) := by
  simpa [isAlpha] using h

theorem isPunct_eq_false_of_isLower {c : Nat} (h : isLower c = true) :
    isPunct c = false := by
  obtain ⟨h1, h2⟩ := isLower_bounds h
  simp only [isPunct, decide_eq_false_iff_not]
  omega

theorem lookahead_of_drop {l : TSLexer} {c : Nat} {t : List Nat}
    (hdrop : l.input.drop l.pos = c :: t) : lookahead l = c := by
  simp [lookahead, hdrop]

theorem drop_advance_of_drop {l : TSLexer} {c : Nat} {t : List Nat}
    (hdrop : l.input.drop l.pos = c :: t) :
    (advance l false).input.drop (advance l false).pos = t := by
  show l.input.drop (l.pos + 1) = t
  rw [← List.tail_drop, hdrop]; rfl

theorem takeWhile_all_append {p : Nat → Bool} {ind : List Nat} {c : Nat}
    {rest : List Nat} (hind : ∀ x ∈ ind, p x = true) (hc : p c = false) :
    (ind ++ c :: rest).takeWhile p = ind := by
  induction ind with
  | nil => simp [List.takeWhile_cons, hc]
  | cons x xs ih =>
    have hx : p x = true := hind x (by simp)
    simp only [List.cons_append, List.takeWhile_cons, hx, if_true]
    rw [ih (fun y hy => hind y (by simp [hy]))]

/-! ## The keyword capture loop -/

/-- The capture loop consumes an entire run of `n` letters when the budget is
exactly `n` (the C loop's `i == KEYWORD_SIZE` exit). -/
theorem keyword_capture_aux_exhaust :
    ∀ (run : List Nat) (l : TSLexer) (acc rest : List Nat),
      l.input.drop l.pos = run ++ rest → (∀ c ∈ run, isAlpha c = true) →
      keyword_capture_aux run.length l acc =
        (acc ++ run, { l with pos := l.pos + run.length }) := by
  intro run
  induction run with
  | nil => intro l acc rest _ _; simp [keyword_capture_aux]
  | cons c t ih =>
    intro l acc rest hdrop halpha
    have hla : lookahead l = c := lookahead_of_drop (by simpa using hdrop)
    simp only [List.length_cons, keyword_capture_aux]
    rw [if_pos (by rw [hla]; exact halpha c (by simp)), hla,
      ih (advance l false) (acc ++ [c]) rest (drop_advance_of_drop (by simpa using hdrop))
        (fun x hx => halpha x (by simp [hx]))]
    simp [advance, List.append_assoc]
    omega

/-- The capture loop stops at the first non-letter when the budget allows the
whole run. -/
theorem keyword_capture_aux_stops :
    ∀ (run : List Nat) (m : Nat) (l : TSLexer) (acc rest : List Nat),
      l.input.drop l.pos = run ++ rest → (∀ c ∈ run, isAlpha c = true) →
      isAlpha (rest.headD 0) = false → run.length ≤ m →
      keyword_capture_aux m l acc = (acc ++ run, { l with pos := l.pos + run.length }) := by
  intro run
  induction run with
  | nil =>
    intro m l acc rest hdrop _ hstop _
    have hla : lookahead l = rest.headD 0 := by simp [lookahead, hdrop]
    cases m with
    | zero => simp [keyword_capture_aux]
    | succ m =>
      simp only [keyword_capture_aux, hla, hstop]
      simp
  | cons c t ih =>
    intro m l acc rest hdrop halpha hstop hm
    have hla : lookahead l = c := lookahead_of_drop (by simpa using hdrop)
    cases m with
    | zero => simp at hm
    | succ m =>
      simp only [keyword_capture_aux]
      rw [if_pos (by rw [hla]; exact halpha c (by simp)), hla,
        ih m (advance l false) (acc ++ [c]) rest (drop_advance_of_drop (by simpa using hdrop))
          (fun x hx => halpha x (by simp [hx])) hstop (by simpa using hm)]
      simp [advance, List.append_assoc]
      omega

/-- With a lowercase lookahead and none of the earlier branch kinds able to
fire (negation prefixes and string not accepted, neither scope kind nor any
heredoc kind accepted, separator nul or punctuation), `scan` falls through
to the keyword path. -/
theorem scan_reaches_keyword_path (kws : List Keyword) (s : Scanner) (valids : Nat → Bool)
    (l : TSLexer) (hlow : isLower (lookahead l) = true)
    (hNO : valids NO = false) (hINV : valids INV = false)
    (hSC : valids SCOPE = false) (hSCD : valids SCOPE_DICT = false)
    (hSH : valids SCRIPT_HEREDOC_MARKER = false) (hLH : valids LET_HEREDOC_MARKER = false)
    (hHE : valids HEREDOC_END = false) (hST : valids STRING = false)
    (hsep : s.separator = 0 ∨ isPunct s.separator = true) :
    scan kws s valids l = scan_keyword_path kws s valids l := by
  obtain ⟨hb1, hb2⟩ := isLower_bounds hlow
  have hskip : skip_space_tabs l = l := skip_space_tabs_eq_self (by
    simp only [isSpaceTab, decide_eq_false_iff_not]
    omega)
  simp only [scan, hskip]
  rw [if_neg (by omega),
    if_neg (by
      intro hp
      rw [isPunct_eq_false_of_isLower hlow] at hp
      exact absurd hp.2 (by simp)),
    if_neg (by
      intro hp
      obtain ⟨-, hpe⟩ := hp
      rcases hsep with h0 | hpt
      · rw [h0] at hpe; omega
      · rw [hpe, isPunct_eq_false_of_isLower hlow] at hpt
        exact absurd hpt (by simp)),
    if_neg (by intro hp; obtain ⟨-, hpe⟩ := hp; omega),
    if_neg (by intro hp; rw [hNO] at hp; exact absurd hp.1 (by simp)),
    if_neg (by intro hp; rw [hINV] at hp; exact absurd hp.1 (by simp)),
    if_neg (by omega)]
  simp only [scan_pipe]
  rw [if_neg (by intro hp; obtain ⟨-, hpe⟩ := hp; omega)]
  simp only [scan_scope]
  rw [if_neg (by
    intro hp
    rcases hp.2 with h | h
    · rw [hSCD] at h; exact absurd h (by simp)
    · rw [hSC] at h; exact absurd h (by simp))]
  simp only [scan_marker_capture]
  rw [if_neg (by simp [hSH]), if_neg (by simp [hLH])]
  simp only [scan_heredoc_end]
  rw [if_neg (by simp [hHE])]
  simp only [scan_comment_string]
  rw [if_neg (by intro hp; obtain ⟨-, -, hpe, -⟩ := hp; omega),
    if_neg (by simp [hST])]

/-! ## C5: the keyword-run cap -/

/-- C5 counterexample: a run of exactly 30 letters followed by a non-letter
(space), with the unknown-command fallback accepted, is not matched as
keyword input — the scan hard-fails, although no 31st letter is present. -/
theorem keyword_run_30_claim_counterexample :
    ((fun n => n == 3 || n == 15) (List.length ([] : List Keyword) + KEYWORDS_BASE) = true) ∧
      isAlpha 32 = false ∧
      (scan [] scanner_create (fun n => n == 3 || n == 15)
        ⟨List.replicate 30 97 ++ [32], 0, none, none⟩).matched = false := by
  decide

theorem scan_keyword_rest_len30_fails (kws : List Keyword) (s : Scanner)
    (valids : Nat → Bool) (l₁ : TSLexer) (c0 : Nat) (tail rest : List Nat)
    (hdrop : l₁.input.drop l₁.pos = tail ++ rest) (halpha : ∀ c ∈ tail, isAlpha c = true)
    (hlen : tail.length = 29) :
    (scan_keyword_rest kws s valids l₁ c0).matched = false := by
  simp only [scan_keyword_rest]
  rw [show (29 : Nat) = tail.length from hlen.symm,
    keyword_capture_aux_exhaust tail l₁ [c0] rest hdrop halpha,
    if_pos (by simp [hlen])]

theorem scan_keyword_rest_short_matches (kws : List Keyword) (s : Scanner)
    (valids : Nat → Bool) (l₁ : TSLexer) (c0 : Nat) (tail rest : List Nat)
    (hdrop : l₁.input.drop l₁.pos = tail ++ rest) (halpha : ∀ c ∈ tail, isAlpha c = true)
    (hstop : isAlpha (rest.headD 0) = false) (hlen : tail.length ≤ 28)
    (hUNK : valids (kws.length + KEYWORDS_BASE) = true) :
    (scan_keyword_rest kws s valids l₁ c0).matched = true := by
  simp only [scan_keyword_rest]
  rw [keyword_capture_aux_stops tail 29 l₁ [c0] rest hdrop halpha hstop (by omega),
    if_neg (by simp; omega)]
  cases hse : keyword_search kws KEYWORDS_BASE ([c0] ++ tail) valids with
  | some r => simp only [hse]
  | none =>
    simp only [hse]
    rw [if_pos hUNK]

/-- C5 (amended).  The keyword capture loop's index cap makes a lookahead run
of 30 or more letters a hard failure even when no 31st letter follows: the
first conjunct shows a 30-letter run followed by anything at all yields no
match.  The second conjunct shows a run of exactly 29 letters followed by a
non-letter is still matched as keyword input (table hit or accepted
unknown-command fallback).  The `valids`/separator hypotheses pin the call
into the keyword path (no earlier branch can fire on a lowercase run). -/
theorem keyword_run_cap (kws : List Keyword) (s : Scanner) (valids : Nat → Bool)
    (hNO : valids NO = false) (hINV : valids INV = false)
    (hSC : valids SCOPE = false) (hSCD : valids SCOPE_DICT = false)
    (hSH : valids SCRIPT_HEREDOC_MARKER = false) (hLH : valids LET_HEREDOC_MARKER = false)
    (hHE : valids HEREDOC_END = false) (hST : valids STRING = false)
    (hsep : s.separator = 0 ∨ isPunct s.separator = true) :
    (∀ (l : TSLexer) (run rest : List Nat),
      l.input.drop l.pos = run ++ rest → run.length = 30 →
      (∀ c ∈ run, isAlpha c = true) → isLower (lookahead l) = true →
      (scan kws s valids l).matched = false) ∧
    (∀ (l : TSLexer) (run rest : List Nat),
      l.input.drop l.pos = run ++ rest → run.length = 29 →
      (∀ c ∈ run, isAlpha c = true) → isLower (lookahead l) = true →
      isAlpha (rest.headD 0) = false →
      valids (kws.length + KEYWORDS_BASE) = true →
      (scan kws s valids l).matched = true) := by
  constructor
  · intro l run rest hdrop hlen halpha hlow
    rw [scan_reaches_keyword_path kws s valids l hlow hNO hINV hSC hSCD hSH hLH hHE hST hsep]
    cases run with
    | nil => simp at hlen
    | cons c0 tail =>
      cases tail with
      | nil => simp at hlen
      | cons c1 tail2 =>
        have hd1 : (advance l false).input.drop (advance l false).pos =
            (c1 :: tail2) ++ rest := drop_advance_of_drop (by simpa using hdrop)
        have hla1 : lookahead (advance l false) = c1 := lookahead_of_drop (by simpa using hd1)
        have hc1b := isAlpha_bounds (halpha c1 (by simp))
        have hrest : (scan_keyword_rest kws s valids (advance l false)
            (lookahead l)).matched = false :=
          scan_keyword_rest_len30_fails kws s valids (advance l false) (lookahead l)
            (c1 :: tail2) rest hd1 (fun c hc => halpha c (by simp [List.mem_cons] at hc ⊢; tauto))
            (by simp at hlen ⊢; omega)
        simp only [scan_keyword_path]
        rw [if_pos hlow]
        by_cases hscl : lookahead l ≠ 0 ∧ (lookahead l = 103 ∨ lookahead l = 98 ∨
            lookahead l = 108 ∨ lookahead l = 116 ∨ lookahead l = 119 ∨
            lookahead l = 115 ∨ lookahead l = 118)
        · rw [if_pos hscl, if_neg (by rw [hla1]; omega)]
          exact hrest
        · rw [if_neg hscl]
          exact hrest
  · intro l run rest hdrop hlen halpha hlow hstop hUNK
    rw [scan_reaches_keyword_path kws s valids l hlow hNO hINV hSC hSCD hSH hLH hHE hST hsep]
    cases run with
    | nil => simp at hlen
    | cons c0 tail =>
      cases tail with
      | nil => simp at hlen
      | cons c1 tail2 =>
        have hd1 : (advance l false).input.drop (advance l false).pos =
            (c1 :: tail2) ++ rest := drop_advance_of_drop (by simpa using hdrop)
        have hla1 : lookahead (advance l false) = c1 := lookahead_of_drop (by simpa using hd1)
        have hc1b := isAlpha_bounds (halpha c1 (by simp))
        have hrest : (scan_keyword_rest kws s valids (advance l false)
            (lookahead l)).matched = true :=
          scan_keyword_rest_short_matches kws s valids (advance l false) (lookahead l)
            (c1 :: tail2) rest hd1 (fun c hc => halpha c (by simp [List.mem_cons] at hc ⊢; tauto))
            hstop (by simp at hlen ⊢; omega) hUNK
        simp only [scan_keyword_path]
        rw [if_pos hlow]
        by_cases hscl : lookahead l ≠ 0 ∧ (lookahead l = 103 ∨ lookahead l = 98 ∨
            lookahead l = 108 ∨ lookahead l = 116 ∨ lookahead l = 119 ∨
            lookahead l = 115 ∨ lookahead l = 118)
        · rw [if_pos hscl, if_neg (by rw [hla1]; omega)]
          exact hrest
        · rw [if_neg hscl]
          exact hrest

/-- C5 witness: a run of 30 `a`s then a space yields no match, a run of 29
`a`s then a space (with the fallback accepted) yields a match. -/
theorem keyword_run_cap_witness :
    (scan [] scanner_create (fun n => n == 3 || n == 15)
        ⟨List.replicate 30 97 ++ [32], 0, none, none⟩).matched = false ∧
      (scan [] scanner_create (fun n => n == 3 || n == 15)
        ⟨List.replicate 29 97 ++ [32], 0, none, none⟩).matched = true :=
  ⟨(keyword_run_cap [] scanner_create (fun n => n == 3 || n == 15) (by decide) (by decide)
      (by decide) (by decide) (by decide) (by decide) (by decide) (by decide) (Or.inl rfl)).1
      ⟨List.replicate 30 97 ++ [32], 0, none, none⟩ (List.replicate 30 97) [32]
      (by decide) (by decide) (by decide) (by decide),
    (keyword_run_cap [] scanner_create (fun n => n == 3 || n == 15) (by decide) (by decide)
      (by decide) (by decide) (by decide) (by decide) (by decide) (by decide) (Or.inl rfl)).2
      ⟨List.replicate 29 97 ++ [32], 0, none, none⟩ (List.replicate 29 97) [32]
      (by decide) (by decide) (by decide) (by decide) (by decide) (by decide)⟩

/-! ## C7: the unterminated double-quoted line reclassified as COMMENT -/

/-- Behaviour of `lex_escapable_string` on an opening line of plain
characters (no backslash, quote, newline or nul) ending in a newline, where
the following line starts with space/tab indentation and then a non-blank,
non-backslash character: the lexer succeeds, re-classified as a COMMENT
token, with both the cursor and the (re-marked) token end at the first
non-blank character of the following line. -/
theorem lex_esc_nl_comment_aux :
    ∀ (line : List Nat) (l : TSLexer) (ind : List Nat) (c : Nat) (rest : List Nat),
      l.input.drop l.pos = line ++ 10 :: (ind ++ c :: rest) →
      (∀ x ∈ line, x ≠ 92 ∧ x ≠ 34 ∧ x ≠ 10 ∧ x ≠ 0) →
      (∀ x ∈ ind, isSpaceTab x = true) → isSpaceTab c = false → c ≠ 92 →
      lex_escapable_string l =
        (true, ⟨l.input, l.pos + line.length + 1 + ind.length,
          some (l.pos + line.length + 1 + ind.length), some COMMENT⟩) := by
  intro line
  induction line with
  | nil =>
    intro l ind c rest hdrop hline hind hc hc92
    have hdrop' : l.input.drop l.pos = 10 :: (ind ++ c :: rest) := by simpa using hdrop
    have hla : lookahead l = 10 := lookahead_of_drop hdrop'
    have hd1 : l.input.drop (l.pos + 1) = ind ++ c :: rest := by
      rw [← List.tail_drop, hdrop']; rfl
    have hd2 : l.input.drop (l.pos + 1 + ind.length) = c :: rest := by
      rw [← List.drop_drop, hd1, List.drop_left]
    have hskipeq : skip_space_tabs (advance (mark_end l) false) =
        ⟨l.input, l.pos + 1 + ind.length, some l.pos, l.resultSymbol⟩ := by
      simp only [skip_space_tabs, advance, mark_end]
      rw [hd1, takeWhile_all_append hind hc]
    have hlaP : lookahead ⟨l.input, l.pos + 1 + ind.length, some l.pos, l.resultSymbol⟩ = c := by
      simp [lookahead, hd2]
    unfold lex_escapable_string
    rw [dif_neg (by rw [hla]; omega), dif_neg (by rw [hla]; omega), dif_pos hla, hskipeq,
      if_pos (by rw [hlaP]; exact hc92)]
    simp [mark_end]
  | cons x line' ih =>
    intro l ind c rest hdrop hline hind hc hc92
    have hx := hline x (by simp)
    have hdrop' : l.input.drop l.pos = x :: (line' ++ 10 :: (ind ++ c :: rest)) := by
      simpa using hdrop
    have hla : lookahead l = x := lookahead_of_drop hdrop'
    have hd1 : (advance l false).input.drop (advance l false).pos =
        line' ++ 10 :: (ind ++ c :: rest) := drop_advance_of_drop hdrop'
    unfold lex_escapable_string
    rw [dif_neg (by rw [hla]; exact hx.1), dif_neg (by rw [hla]; exact hx.2.1),
      dif_neg (by rw [hla]; exact hx.2.2.1), dif_neg (by rw [hla]; exact hx.2.2.2),
      ih (advance l false) ind c rest hd1 (fun y hy => hline y (by simp [hy])) hind hc hc92]
    simp [advance]
    omega

/-- C7 counterexample: on the line `a` (after the opening quote), a newline,
two spaces of indentation and then `x`, the string lexer succeeds with a
COMMENT token but its marked end is position 4 — at the `x`, past the
newline (position 1) and the indentation — not at the newline. -/
theorem lex_escapable_comment_end_counterexample :
    (lex_escapable_string ⟨[97, 10, 32, 32, 120], 0, none, none⟩).1 = true ∧
      (lex_escapable_string ⟨[97, 10, 32, 32, 120], 0, none, none⟩).2.resultSymbol =
        some COMMENT ∧
      (lex_escapable_string ⟨[97, 10, 32, 32, 120], 0, none, none⟩).2.markedEnd = some 4 ∧
      some (4 : Nat) ≠ some 1 ∧ some (4 : Nat) ≠ some 2 := by
  have h := lex_esc_nl_comment_aux [97] ⟨[97, 10, 32, 32, 120], 0, none, none⟩ [32, 32] 120 []
    (by decide) (by decide) (by decide) (by decide) (by decide)
  rw [h]
  exact ⟨rfl, rfl, by decide, by decide, by decide⟩

/-- C7 (amended).  For a double-quoted string whose opening line (after the
`"` opener, which `lex_string` has already consumed when this lexer runs)
ends in a newline and whose following line does not begin, after space/tab
indentation, with a backslash, the string lexer succeeds with a COMMENT-kind
token, not a failure; the token's marked end, however, is re-marked past the
newline and the indentation, at the first non-blank character of the
following line — not kept at the newline. -/
theorem lex_escapable_unterminated_is_comment (l : TSLexer) (line ind : List Nat)
    (c : Nat) (rest : List Nat)
    (hdrop : l.input.drop l.pos = line ++ 10 :: (ind ++ c :: rest))
    (hline : ∀ x ∈ line, x ≠ 92 ∧ x ≠ 34 ∧ x ≠ 10 ∧ x ≠ 0)
    (hind : ∀ x ∈ ind, isSpaceTab x = true) (hc : isSpaceTab c = false) (hc92 : c ≠ 92) :
    (lex_escapable_string l).1 = true ∧
      (lex_escapable_string l).2.resultSymbol = some COMMENT ∧
      (lex_escapable_string l).2.markedEnd =
        some (l.pos + line.length + 1 + ind.length) := by
  rw [lex_esc_nl_comment_aux line l ind c rest hdrop hline hind hc hc92]
  exact ⟨rfl, rfl, rfl⟩

/-- C7 witness: the amended statement evaluated on `ab`, newline, one space,
then `no`: a COMMENT token whose end is re-marked at position 4 (the `n`). -/
theorem lex_escapable_unterminated_is_comment_witness :
    (lex_escapable_string ⟨[97, 98, 10, 32, 110, 111], 0, none, none⟩).1 = true ∧
      (lex_escapable_string ⟨[97, 98, 10, 32, 110, 111], 0, none, none⟩).2.resultSymbol =
        some COMMENT ∧
      (lex_escapable_string ⟨[97, 98, 10, 32, 110, 111], 0, none, none⟩).2.markedEnd =
        some (0 + [97, 98].length + 1 + [32].length) :=
  lex_escapable_unterminated_is_comment ⟨[97, 98, 10, 32, 110, 111], 0, none, none⟩
    [97, 98] [32] 110 [111] (by decide) (by decide) (by decide) (by decide) (by decide)

/-- C4 witness: with marker `A` and HEREDOC_END accepted, scanning the line
`A` at end of input emits the HEREDOC_END token, which is among the permitted
pre-heredoc kinds. -/
theorem scan_heredoc_end_gate_witness :
    ((fun n => n == 3 || n == 6) : Nat → Bool) HEREDOC_END = true ∧
      (⟨0, false, [65]⟩ : Scanner).marker ≠ [] ∧
      (scan [] ⟨0, false, [65]⟩ (fun n => n == 3 || n == 6)
        ⟨[65], 0, none, none⟩).matched = true ∧
      (scan [] ⟨0, false, [65]⟩ (fun n => n == 3 || n == 6)
        ⟨[65], 0, none, none⟩).lexer.resultSymbol = some HEREDOC_END ∧
      HEREDOC_END ∈ preHeredocKinds :=
  ⟨by decide, by decide, by decide, by decide,
    scan_heredoc_end_gate [] ⟨0, false, [65]⟩ (fun n => n == 3 || n == 6)
      ⟨[65], 0, none, none⟩ (by decide) (by decide) HEREDOC_END (by decide) (by decide)⟩

end VimScanner
